import Mathlib

/-!
# Verification of the `qr-comm` transmit pipeline

Shallow embedding of `qr-comm.py` (a Python 2 program). The transmit (`tx`)
branch reads a binary payload, optionally zlib-compresses it, splits it into
segments of `--bytes` bytes, QR-encodes each segment into a still image saved
under a temporary directory, optionally assembles an animated image via the
external `convert` tool, optionally displays the frames, and finally removes
the temporary directory.

Payload bytes are modelled as `List Nat`; Python 2 `/` on non-negative
integers is `Nat` division (floor).  Wall-clock durations are modelled as
rationals.  The external zlib compressor/decompressor pair is a parameter
(any function together with its left inverse).
-/

namespace QrComm

/-- `count = (total / args.bytes) + 1` (qr-comm.py line 139); Python 2 `/`
on non-negative ints is floor division, i.e. `Nat` division. -/
def txCount (total bytes : Nat) : Nat :=
  total / bytes + 1

/-- The loop `for i in range(0, total, args.bytes): segment = payload[i:i + args.bytes]`
(qr-comm.py lines 154-160), started at offset `i`: Python slicing
`payload[i:i+C]` is `(P.drop i).take C`.  The `0 < C` guard reflects that
`range` with step `C ≥ 1` enumerates `i, i+C, ...` while `i < total`. -/
def txLoop (P : List Nat) (C : Nat) (i : Nat) : List (List Nat) :=
  if h : i < P.length ∧ 0 < C then
    (P.drop i).take C :: txLoop P C (i + C)
  else
    []
termination_by P.length - i
decreasing_by omega

/-- The full segment list produced by the transmit loop (offset starts at 0). -/
def segments (P : List Nat) (C : Nat) : List (List Nat) :=
  txLoop P C 0

/-- Structural-recursion companion of `txLoop`: peel `take C` / `drop C`. -/
def chunks (C : Nat) (l : List Nat) : List (List Nat) :=
  if h : l = [] ∨ C = 0 then
    []
  else
    l.take C :: chunks C (l.drop C)
termination_by l.length
decreasing_by
  simp only [List.length_drop]
  rcases Nat.eq_zero_or_pos C with hC | hC
  · exact absurd (Or.inr hC) h
  · have : l.length ≠ 0 := by
      intro h0
      exact h (Or.inl (List.length_eq_zero.mp h0))
    omega

theorem txLoop_eq_chunks (C : Nat) :
    ∀ (n : Nat) (P : List Nat) (i : Nat), P.length - i ≤ n →
      txLoop P C i = chunks C (P.drop i) := by
  intro n
  induction n with
  | zero =>
      intro P i hn
      rw [txLoop, chunks]
      have hle : P.length ≤ i := by omega
      have hdrop : P.drop i = [] := List.drop_eq_nil_of_le hle
      simp [hdrop]
      omega
  | succ n ih =>
      intro P i hn
      rw [txLoop, chunks]
      by_cases h : i < P.length ∧ 0 < C
      · have hne : ¬(P.drop i = [] ∨ C = 0) := by
          rintro (hd | hC0)
          · have := congrArg List.length hd
            simp [List.length_drop] at this
            omega
          · omega
        rw [dif_pos h, dif_neg hne]
        have h2 : (P.drop i).drop C = P.drop (i + C) := by
          rw [List.drop_drop, Nat.add_comm]
        rw [h2]
        have : txLoop P C (i + C) = chunks C (P.drop (i + C)) := by
          apply ih
          omega
        rw [this]
      · rw [dif_neg h]
        have hcases : P.length ≤ i ∨ C = 0 := by
          rcases Nat.lt_or_ge i P.length with hlt | hge
          · right
            by_contra hC0
            exact h ⟨hlt, Nat.pos_of_ne_zero hC0⟩
          · left; exact hge
        rcases hcases with hle | hC0
        · have hdrop : P.drop i = [] := List.drop_eq_nil_of_le hle
          rw [dif_pos (Or.inl hdrop)]
        · rw [dif_pos (Or.inr hC0)]

theorem segments_eq_chunks (P : List Nat) (C : Nat) :
    segments P C = chunks C P := by
  have := txLoop_eq_chunks C P.length P 0 (by omega)
  simpa [segments] using this

theorem chunks_join (C : Nat) (hC : 0 < C) :
    ∀ (n : Nat) (l : List Nat), l.length ≤ n → (chunks C l).flatten = l := by
  intro n
  induction n with
  | zero =>
      intro l hn
      have : l = [] := List.length_eq_zero.mp (by omega)
      subst this
      rw [chunks]
      simp
  | succ n ih =>
      intro l hn
      rw [chunks]
      by_cases h : l = [] ∨ C = 0
      · rcases h with h | h
        · subst h; simp
        · omega
      · rw [dif_neg h]
        have hlen : (l.drop C).length ≤ n := by
          have hne : l ≠ [] := fun h0 => h (Or.inl h0)
          have : l.length ≠ 0 := fun h0 => hne (List.length_eq_zero.mp h0)
          simp only [List.length_drop]
          omega
        simp only [List.flatten_cons]
        rw [ih (l.drop C) hlen, List.take_append_drop]

/-- Concatenating the segments in index order recovers the segmented bytes. -/
theorem segments_join (P : List Nat) (C : Nat) (hC : 0 < C) :
    (segments P C).flatten = P := by
  rw [segments_eq_chunks]
  exact chunks_join C hC P.length P (le_refl _)

theorem chunks_get? (C : Nat) (hC : 0 < C) :
    ∀ (k : Nat) (l : List Nat),
      (chunks C l).get? k =
        if k * C < l.length then some ((l.drop (k * C)).take C) else none := by
  intro k
  induction k with
  | zero =>
      intro l
      rw [chunks]
      by_cases h : l = [] ∨ C = 0
      · rcases h with h | h
        · subst h; simp
        · omega
      · rw [dif_neg h]
        have hne : l ≠ [] := fun h0 => h (Or.inl h0)
        have hlen : 0 < l.length := List.length_pos.mpr hne
        simp [hlen]
  | succ k ih =>
      intro l
      rw [chunks]
      by_cases h : l = [] ∨ C = 0
      · rcases h with h | h
        · subst h; simp
        · omega
      · rw [dif_neg h]
        rw [List.get?_cons_succ, ih (l.drop C)]
        have hdd : (l.drop C).drop (k * C) = l.drop ((k + 1) * C) := by
          rw [List.drop_drop]
          congr 1
          ring
        have hiff : k * C < (l.drop C).length ↔ (k + 1) * C < l.length := by
          simp only [List.length_drop]
          have hkc : (k + 1) * C = k * C + C := by ring
          omega
        by_cases hk : (k + 1) * C < l.length
        · rw [if_pos (hiff.mpr hk), if_pos hk, hdd]
        · rw [if_neg (fun hlt => hk (hiff.mp hlt)), if_neg hk]

theorem segments_get? (P : List Nat) (C : Nat) (hC : 0 < C) (k : Nat) :
    (segments P C).get? k =
      if k * C < P.length then some ((P.drop (k * C)).take C) else none := by
  rw [segments_eq_chunks]
  exact chunks_get? C hC k P

/-- Errors a transmit run can surface.  `zeroDivisionError` is what Python 2
raises on an integer division by zero: at `ratio = 100 * after/before`
(qr-comm.py line 128) when the payload is empty, and at
`count = (total / args.bytes) + 1` (line 139) when `--bytes 0`;
`invalidConfiguration` is the error kind the specification names — the code
contains no such validation, so this constructor is never produced (it
exists so the claimed behavior can be stated and compared). -/
inductive Py2Error where
  | zeroDivisionError
  | invalidConfiguration
deriving DecidableEq

/-- The zlib branch (qr-comm.py lines 120-132): compress the whole payload;
`ratio = 100 * after/before` (line 128) is Python 2 integer division by
`before = len(payload)` and raises an uncaught ZeroDivisionError for an
empty payload, before the decision at line 130 ever runs.  Otherwise
`if after >= before:` keeps the original payload (only a warning is
logged), `else: payload = _payload` adopts the compressed candidate.  The
returned boolean records whether the candidate was adopted (`applied`).
The external compressor is a parameter. -/
def compressDecision (payload : List Nat) (compress : List Nat → List Nat) :
    Except Py2Error (List Nat × Bool) :=
  let candidate := compress payload
  if payload.length = 0 then Except.error Py2Error.zeroDivisionError
  else if candidate.length ≥ payload.length then Except.ok (payload, false)
  else Except.ok (candidate, true)

/-- The byte sequence that actually gets segmented, together with the
`applied` flag — or the error that aborts the run before segmentation: the
zlib branch runs only when `--zlib` was passed (qr-comm.py line 121). -/
def txRepr (P : List Nat) (useZlib : Bool) (compress : List Nat → List Nat) :
    Except Py2Error (List Nat × Bool) :=
  if useZlib then compressDecision P compress else Except.ok (P, false)

/-- C4: with compression requested on the empty payload, the zlib branch
dies with ZeroDivisionError at the ratio computation (line 128,
`before = 0`) before the keep-or-discard decision at line 130 runs, so no
applied flag is ever chosen there (the candidate, zlib's 8-byte
empty-stream output, is neither discarded nor adopted); for non-empty
payloads the decision does run: an 8-byte candidate for a 1-byte payload
is discarded (applied = false) and a 3-byte candidate for a 9-byte payload
is adopted (applied = true). -/
theorem compress_crash_on_empty_payload :
    compressDecision [] (fun _ => [120, 218, 3, 0, 0, 0, 0, 1]) =
      Except.error Py2Error.zeroDivisionError ∧
    compressDecision [] (fun _ => [120, 218, 3, 0, 0, 0, 0, 1]) ≠
      Except.ok ([], false) ∧
    compressDecision [9] (fun _ => [120, 218, 3, 0, 0, 0, 0, 1]) =
      Except.ok ([9], false) ∧
    compressDecision [9, 9, 9, 9, 9, 9, 9, 9, 9] (fun _ => [120, 218, 3]) =
      Except.ok ([120, 218, 3], true) := by
  refine ⟨by rfl, ?_, by rfl, by rfl⟩
  simp [compressDecision]

theorem segments_window (Q : List Nat) (C : Nat) (hC : 0 < C) (k : Nat)
    (s : List Nat) (hs : (segments Q C).get? k = some s) :
    s = (Q.drop (k * C)).take C ∧ k * C < Q.length := by
  rw [segments_get? Q C hC k] at hs
  by_cases hk : k * C < Q.length
  · rw [if_pos hk] at hs
    exact ⟨(Option.some.inj hs).symm, hk⟩
  · rw [if_neg hk] at hs
    exact absurd hs (by simp)

theorem segments_window_length (Q : List Nat) (C : Nat) (hC : 0 < C)
    (k : Nat) (s s' : List Nat) (hk : (segments Q C).get? k = some s)
    (hk1 : (segments Q C).get? (k + 1) = some s') : s.length = C := by
  obtain ⟨hs, _⟩ := segments_window Q C hC k s hk
  obtain ⟨_, hlt⟩ := segments_window Q C hC (k + 1) s' hk1
  subst hs
  rw [List.length_take, List.length_drop]
  have hkc : (k + 1) * C = k * C + C := by ring
  omega

/-- C2 counterexample: with compression requested on the empty payload the
run dies with ZeroDivisionError (line 128) before the segment loop, so the
transmit pipeline never produces segments there and nothing reassembles to
the payload; the claim's universal quantification over every payload fails
at this input. -/
theorem tx_empty_zlib_crash :
    txRepr [] true (fun _ => [120, 218, 3, 0, 0, 0, 0, 1]) =
      Except.error Py2Error.zeroDivisionError ∧
    txRepr [] true (fun _ => [120, 218, 3, 0, 0, 0, 0, 1]) ≠
      Except.ok ([], false) ∧
    txRepr [] true (fun _ => [120, 218, 3, 0, 0, 0, 0, 1]) ≠
      Except.ok ([120, 218, 3, 0, 0, 0, 0, 1], true) := by
  refine ⟨by rfl, ?_, ?_⟩ <;> simp [txRepr, compressDecision]

/-- C2 amended: for every capacity C >= 1 and every run in which the
compression stage returns a representation `tp` with flag `applied` — which
it does for every payload when compression is off and for every non-empty
payload when compression is on, but not for the empty payload under
`--zlib`, where the run crashes before segmenting — the segments produced
by the transmit loop are contiguous, non-overlapping windows of `tp` of
length C (final window possibly shorter), and concatenating their data in
index order, after decompression when `applied` is set, yields exactly the
original payload. -/
theorem tx_segments_reassemble (P : List Nat) (C : Nat) (useZlib : Bool)
    (compress decompress : List Nat → List Nat)
    (tp : List Nat) (applied : Bool)
    (hC : 0 < C) (hround : ∀ x, decompress (compress x) = x)
    (hok : txRepr P useZlib compress = Except.ok (tp, applied)) :
    (∀ k s, (segments tp C).get? k = some s →
        s = (tp.drop (k * C)).take C) ∧
    (∀ k s s', (segments tp C).get? k = some s →
        (segments tp C).get? (k + 1) = some s' → s.length = C) ∧
    ((if applied then decompress ((segments tp C).flatten)
      else (segments tp C).flatten) = P) := by
  refine ⟨fun k s hs => (segments_window _ C hC k s hs).1,
    fun k s s' hk hk1 => segments_window_length _ C hC k s s' hk hk1, ?_⟩
  cases useZlib with
  | false =>
      rw [show txRepr P false compress = Except.ok (P, false) from rfl] at hok
      injection Except.ok.inj hok with h1 h2
      subst h1
      subst h2
      exact segments_join P C hC
  | true =>
      rw [show txRepr P true compress = compressDecision P compress from rfl,
        compressDecision] at hok
      by_cases h0 : P.length = 0
      · rw [if_pos h0] at hok
        exact absurd hok (by simp)
      · rw [if_neg h0] at hok
        by_cases h : P.length ≤ (compress P).length
        · rw [if_pos h] at hok
          injection Except.ok.inj hok with h1 h2
          subst h1
          subst h2
          exact segments_join P C hC
        · rw [if_neg h] at hok
          injection Except.ok.inj hok with h1 h2
          subst h1
          subst h2
          simp only [if_true]
          rw [segments_join (compress P) C hC]
          exact hround P

theorem tx_segments_reassemble_witness :
    (segments [1, 2, 3] 2).flatten = [1, 2, 3] := by
  have h := (tx_segments_reassemble [1, 2, 3] 2 true id id [1, 2, 3] false
    (by decide) (fun x => rfl) (by rfl)).2.2
  simpa using h

/-- C1: for the non-empty 2-byte payload at capacity 2, the code computes
and stamps count = 2 while the transmit loop generates exactly
ceil(2 / 2) = 1 segment — the stamped count disagrees with the claimed
ceiling and with the code's own frame production whenever the capacity
divides a non-empty payload length. -/
theorem txCount_ne_ceil :
    txCount 2 2 = 2 ∧ (segments [1, 2] 2).length = 1 ∧
    (2 + 2 - 1) / 2 = 1 ∧ txCount 2 2 ≠ (2 + 2 - 1) / 2 := by
  refine ⟨by decide, ?_, by decide, by decide⟩
  simp [segments, txLoop]

/-- The stamped segment count in general: it is `total / C + 1` (floor
division plus one), which equals `ceil(total / C)` exactly when `C` does
not divide `total`; when `C` divides a non-empty `total` it exceeds the
ceiling by one; for an empty payload it equals 1. -/
theorem txCount_formula (total C : Nat) (hC : 0 < C) :
    txCount total C = total / C + 1 ∧
    (total = 0 → txCount total C = 1) ∧
    (¬ C ∣ total → txCount total C = (total + C - 1) / C) ∧
    (C ∣ total → 0 < total → txCount total C = (total + C - 1) / C + 1) := by
  have hdm := Nat.div_add_mod total C
  have hmod : total % C < C := Nat.mod_lt total hC
  refine ⟨rfl, ?_, ?_, ?_⟩
  · intro h0
    subst h0
    simp [txCount]
  · intro hnd
    have hr : total % C ≠ 0 := fun h0 => hnd (Nat.dvd_of_mod_eq_zero h0)
    have hmul : C * (total / C + 1) = C * (total / C) + C := by ring
    have h1 : total + C - 1 = C * (total / C + 1) + (total % C - 1) := by
      omega
    have h2 : (C * (total / C + 1) + (total % C - 1)) / C =
        total / C + 1 + (total % C - 1) / C := Nat.mul_add_div hC _ _
    have h3 : (total % C - 1) / C = 0 := Nat.div_eq_of_lt (by omega)
    have hceil : (total + C - 1) / C = total / C + 1 := by
      rw [h1, h2, h3]
    rw [hceil]
    rfl
  · intro hdvd h0
    obtain ⟨q, hq⟩ := hdvd
    have hq1 : 1 ≤ q := by
      rcases Nat.eq_zero_or_pos q with h | h
      · subst h
        omega
      · exact h
    have h1 : total + C - 1 = C * q + (C - 1) := by omega
    have h2 : (C * q + (C - 1)) / C = q + (C - 1) / C := Nat.mul_add_div hC _ _
    have h3 : (C - 1) / C = 0 := Nat.div_eq_of_lt (by omega)
    have h4 : total / C = q := by
      rw [hq]
      exact Nat.mul_div_cancel_left q hC
    have hceil : (total + C - 1) / C = q := by
      rw [h1, h2, h3, Nat.add_zero]
    rw [hceil]
    show total / C + 1 = q + 1
    rw [h4]

theorem txCount_formula_witness :
    txCount 3 2 = 3 / 2 + 1 ∧ txCount 3 2 = (3 + 2 - 1) / 2 ∧
    txCount 4 2 = (4 + 2 - 1) / 2 + 1 := by
  have h3 := txCount_formula 3 2 (by decide)
  have h4 := txCount_formula 4 2 (by decide)
  exact ⟨h3.1, h3.2.2.1 (by decide), h4.2.2.2 (by decide) (by decide)⟩

/-- C7 counterexample: for the empty payload with capacity 1, the transmit
loop produces zero segments, not exactly one segment with empty data. -/
theorem empty_payload_no_segment :
    segments [] 1 = [] ∧ (segments [] 1).length ≠ 1 := by
  constructor
  · simp [segments, txLoop]
  · simp [segments, txLoop]

/-- C7 amended: for the empty payload the computed count is 1, but the
transmit loop produces no segment at all (the loop body never runs), so no
frame is generated and the transfer is effectively dropped. -/
theorem empty_payload_behavior (C : Nat) (hC : 0 < C) :
    txCount 0 C = 1 ∧ segments [] C = [] := by
  constructor
  · simp [txCount]
  · rw [segments, txLoop]
    simp

theorem empty_payload_behavior_witness :
    txCount 0 1 = 1 ∧ segments [] 1 = [] :=
  empty_payload_behavior 1 (by decide)

/-- The offsets visited by `for i in range(0, total, args.bytes)`
(qr-comm.py line 154), starting from offset `i`. -/
def frameOffsets (total C i : Nat) : List Nat :=
  if h : i < total ∧ 0 < C then i :: frameOffsets total C (i + C) else []
termination_by total - i
decreasing_by omega

/-- `img.save(os.path.join(temp, str(i)))` (qr-comm.py line 180): each frame
file is named by the decimal representation of its segment's byte offset.
Names are modelled as their byte sequences, since the shell compares file
names byte by byte. -/
def fileNameBytes (i : Nat) : List Nat :=
  (Nat.repr i).data.map Char.toNat

/-- The frame file names written to the temporary directory, in segment
index order. -/
def frameNames (total C : Nat) : List (List Nat) :=
  (frameOffsets total C 0).map fileNameBytes

/-- Byte-wise lexicographic comparison of two names (`strcmp` order). -/
def lexLe : List Nat → List Nat → Bool
  | [], _ => true
  | _ :: _, [] => false
  | a :: as, b :: bs =>
    if a < b then true else if b < a then false else lexLe as bs

def insertLex (s : List Nat) : List (List Nat) → List (List Nat)
  | [] => [s]
  | t :: ts => if lexLe s t then s :: t :: ts else t :: insertLex s ts

def lexSort : List (List Nat) → List (List Nat)
  | [] => []
  | s :: ss => insertLex s (lexSort ss)

/-- Modelled from the spec: the animation assembler is invoked as
`convert -delay .. -loop 0 <temp>/* <outfile>` through a shell
(qr-comm.py lines 213-215, `shell=True`); the `*` glob is expanded by the
shell, whose POSIX pathname expansion passes the matching file names sorted
lexicographically byte by byte.  The ordered file list the assembler
receives is therefore the lexicographic sort of the frame names. -/
def convertFileList (total C : Nat) : List (List Nat) :=
  lexSort (frameNames total C)

/-- C3: The frame files are indeed named by segment byte offset, but the
file list the external assembler receives is the glob's lexicographic
order, which for a 22-byte payload at capacity 2 interleaves the two-digit
offsets ("10" < "2" byte-wise) and is not the segment index order. -/
theorem convert_frame_order_bug :
    frameNames 22 2 =
      List.map fileNameBytes [0, 2, 4, 6, 8, 10, 12, 14, 16, 18, 20] ∧
    convertFileList 22 2 =
      List.map fileNameBytes [0, 10, 12, 14, 16, 18, 2, 20, 4, 6, 8] ∧
    convertFileList 22 2 ≠ frameNames 22 2 := by
  have hoff : frameOffsets 22 2 0 = [0, 2, 4, 6, 8, 10, 12, 14, 16, 18, 20] := by
    simp [frameOffsets]
  refine ⟨?_, ?_, ?_⟩
  · rw [frameNames, hoff]
  · rw [convertFileList, frameNames, hoff]
    decide
  · rw [convertFileList, frameNames, hoff]
    decide

/-- The data handed to the QR encoder for one segment (qr-comm.py line 172):
`qr.add_data(segment)` — only the raw segment bytes, nothing else. -/
def qrFrameData (segment : List Nat) : List Nat :=
  segment

/-- The QR payloads of all frames of one transfer, in index order. -/
def txFrameDatas (P : List Nat) (C : Nat) : List (List Nat) :=
  (segments P C).map qrFrameData

/-- C5 counterexample: the first frame of the two-segment transfer of
`[7, 8]` and the only frame of the one-segment transfer of `[7]` carry the
same QR payload although their `count` metadata differ, and the two frames
of the transfer of `[7, 7]` are identical although their indices differ:
no metadata is encoded, so a decoder cannot parse index or count from a
single frame in isolation. -/
theorem frame_metadata_absent :
    (txFrameDatas [7, 8] 1).get? 0 = some [7] ∧
    (txFrameDatas [7] 1).get? 0 = some [7] ∧
    txCount 2 1 ≠ txCount 1 1 ∧
    (txFrameDatas [7, 7] 1).get? 0 = (txFrameDatas [7, 7] 1).get? 1 := by
  refine ⟨?_, ?_, by decide, ?_⟩ <;>
    simp [txFrameDatas, segments, txLoop, qrFrameData]

/-- C5 amended: each frame's QR payload is exactly the raw segment bytes;
no metadata (index, count, compression flag) and no framing header is added,
so concatenating the frame payloads gives the segmented byte sequence with
zero framing overhead. -/
theorem frame_payload_is_raw_segment (P : List Nat) (C : Nat) (hC : 0 < C) :
    txFrameDatas P C = segments P C ∧ (txFrameDatas P C).flatten = P := by
  have hmap : txFrameDatas P C = segments P C := by
    have hid : qrFrameData = id := funext fun s => rfl
    rw [txFrameDatas, hid, List.map_id]
  exact ⟨hmap, by rw [hmap]; exact segments_join P C hC⟩

theorem frame_payload_is_raw_segment_witness :
    (txFrameDatas [5, 6, 7] 2).flatten = [5, 6, 7] :=
  (frame_payload_is_raw_segment [5, 6, 7] 2 (by decide)).2

/-- The transmit pipeline's segment production as a function of the
`--bytes` value (an arbitrary int on the command line, default 1024):
`--bytes 0` raises `ZeroDivisionError` at the `count` computation (line
139), before the segment loop; a negative `--bytes` floor-divides without
error and `range(0, total, negative)` is empty, so the loop body never
runs; a positive `--bytes` produces the segment list. -/
def txPipeline (P : List Nat) (bytes : Int) : Except Py2Error (List (List Nat)) :=
  if bytes = 0 then Except.error Py2Error.zeroDivisionError
  else if bytes < 0 then Except.ok []
  else Except.ok (segments P bytes.toNat)

/-- C6 counterexample: with the non-positive capacity -1 the transmit
pipeline completes without any error (producing zero segments), and with
capacity 0 it fails with ZeroDivisionError, not InvalidConfiguration. -/
theorem no_invalid_configuration :
    txPipeline [1, 2, 3] (-1) = Except.ok [] ∧
    txPipeline [1, 2, 3] 0 = Except.error Py2Error.zeroDivisionError ∧
    txPipeline [1, 2, 3] 0 ≠ Except.error Py2Error.invalidConfiguration := by
  refine ⟨?_, ?_, ?_⟩
  · simp [txPipeline]
  · simp [txPipeline]
  · simp [txPipeline]

/-- C6 amended: the capacity is never validated.  `--bytes 0` fails with an
uncaught ZeroDivisionError at the count computation, before any segment is
produced; a negative `--bytes` produces zero segments and no error; no
`InvalidConfiguration` error exists on any path. -/
theorem capacity_unvalidated (P : List Nat) (bytes : Int) :
    (bytes = 0 → txPipeline P bytes = Except.error Py2Error.zeroDivisionError) ∧
    (bytes < 0 → txPipeline P bytes = Except.ok []) ∧
    (0 < bytes → txPipeline P bytes = Except.ok (segments P bytes.toNat)) ∧
    (∀ e, txPipeline P bytes = Except.error e →
      e = Py2Error.zeroDivisionError) := by
  refine ⟨fun h0 => by simp [txPipeline, h0], ?_, ?_, ?_⟩
  · intro hneg
    have h0 : bytes ≠ 0 := by omega
    simp [txPipeline, h0, hneg]
  · intro hpos
    have h0 : bytes ≠ 0 := by omega
    have hneg : ¬ bytes < 0 := by omega
    simp [txPipeline, h0, hneg]
  · intro e he
    rw [txPipeline] at he
    by_cases h0 : bytes = 0
    · rw [if_pos h0] at he
      exact (Except.error.inj he).symm
    · rw [if_neg h0] at he
      by_cases hneg : bytes < 0
      · rw [if_pos hneg] at he
        simp at he
      · rw [if_neg hneg] at he
        simp at he

theorem capacity_unvalidated_witness :
    txPipeline [1] 0 = Except.error Py2Error.zeroDivisionError ∧
    txPipeline [1] (-1) = Except.ok [] :=
  ⟨(capacity_unvalidated [1] 0).1 rfl,
   (capacity_unvalidated [1] (-1)).2.1 (by decide)⟩

/-- Exceptions a Python 2 transmit run can raise mid-run. -/
inductive PyExn where
  | keyboardInterrupt
  | dataOverflow
deriving DecidableEq

/-- Exit-path control flow of the tx branch (qr-comm.py lines 134-238):
`tempfile.mkdtemp()` (line 135), then the frame-generation loop (lines
154-205), then `convert` if an outfile was given (lines 208-215), then the
display loop if no outfile or `--display` (lines 217-235), then
`shutil.rmtree(temp)` (line 238).  There is no try/finally: an exception in
any phase propagates and the `rmtree` on the last line is skipped.  Each
phase is modelled by its outcome (ok, or the exception it raises); the
returned boolean records whether the temporary directory was removed. -/
def txCleanupFlow (encode output display : Except PyExn Unit)
    (hasOutfile displayFlag : Bool) : Bool × Except PyExn Unit :=
  match encode with
  | Except.error e => (false, Except.error e)
  | Except.ok _ =>
    match (if hasOutfile then output else Except.ok ()) with
    | Except.error e => (false, Except.error e)
    | Except.ok _ =>
      match (if !hasOutfile || displayFlag then display else Except.ok ()) with
      | Except.error e => (false, Except.error e)
      | Except.ok _ => (true, Except.ok ())

/-- C8: the temporary directory is removed only when every phase completes;
a user interrupt during the display loop, or a failure during frame
generation, exits without removing it. -/
theorem temp_dir_not_removed_on_failure :
    (txCleanupFlow (Except.ok ()) (Except.ok ())
      (Except.error PyExn.keyboardInterrupt) false false).1 = false ∧
    (txCleanupFlow (Except.error PyExn.dataOverflow) (Except.ok ())
      (Except.ok ()) false false).1 = false ∧
    (txCleanupFlow (Except.ok ()) (Except.error PyExn.keyboardInterrupt)
      (Except.ok ()) true false).1 = false ∧
    (txCleanupFlow (Except.ok ()) (Except.ok ()) (Except.ok ())
      false false).1 = true :=
  ⟨rfl, rfl, rfl, rfl⟩

/-- The mode dispatch of the program (qr-comm.py lines 101-105). -/
inductive Mode where
  | rx
  | tx
deriving DecidableEq

/-- Observable outcome of a receive-mode run. -/
structure RxOutcome where
  framesDecoded : Nat
  payload : Option (List Nat)
  exitCode : Nat
deriving DecidableEq

/-- The rx branch (qr-comm.py lines 101-102) is a bare `pass`: whatever the
`source` argument, no frame is decoded, no payload is produced, and the
program falls through to a normal exit (status 0). -/
def runRx (source : String) : RxOutcome :=
  { framesDecoded := 0, payload := none, exitCode := 0 }

/-- C10: every rx-mode invocation performs no receive processing — it
decodes no frames and produces no payload — and terminates successfully
with exit status zero, regardless of the source argument. -/
theorem rx_mode_no_processing (source : String) :
    (runRx source).framesDecoded = 0 ∧ (runRx source).payload = none ∧
    (runRx source).exitCode = 0 :=
  ⟨rfl, rfl, rfl⟩

theorem rx_mode_no_processing_witness :
    (runRx "frames.png").framesDecoded = 0 ∧
    (runRx "frames.png").payload = none ∧
    (runRx "frames.png").exitCode = 0 :=
  rx_mode_no_processing "frames.png"

/-- The per-segment timing bookkeeping of the transmit loop (qr-comm.py
lines 152, 186-190): `timed.append(time.time() - run)`,
`avg = sum(timed) / len(timed)`, `remain = (count - num) * avg`, where
`num` is the 1-based ordinal of the segment just encoded.  The loop is
driven by the list of wall-clock encode durations (rationals); the result
is the list of `remain` values reported after each segment. -/
def timingLoop (count : ℚ) (num : Nat) (timed : List ℚ) :
    List ℚ → List ℚ
  | [] => []
  | d :: ds =>
    let timed' := timed ++ [d]
    let avg := timed'.sum / (timed'.length : ℚ)
    ((count - (num : ℚ)) * avg) :: timingLoop count (num + 1) timed' ds

/-- The reported estimated-remaining times of a run, starting with segment
number 1 and an empty timing history (qr-comm.py lines 150-152). -/
def txRemainReports (count : ℚ) (durations : List ℚ) : List ℚ :=
  timingLoop count 1 [] durations

theorem timingLoop_get? (count : ℚ) :
    ∀ (ds : List ℚ) (num : Nat) (timed : List ℚ) (k : Nat), k < ds.length →
      (timingLoop count num timed ds).get? k =
        some ((count - ((num + k : Nat) : ℚ)) *
          ((timed ++ ds.take (k + 1)).sum /
            (((timed.length + (k + 1) : Nat)) : ℚ))) := by
  intro ds
  induction ds with
  | nil =>
      intro num timed k hk
      simp at hk
  | cons d ds ih =>
      intro num timed k hk
      cases k with
      | zero =>
          simp [timingLoop]
      | succ k =>
          have hk' : k < ds.length := by
            simp at hk
            omega
          simp only [timingLoop, List.get?_cons_succ]
          rw [ih (num + 1) (timed ++ [d]) k hk']
          have e1 : ((num + 1 + k : Nat) : ℚ) = ((num + (k + 1) : Nat) : ℚ) := by
            push_cast
            ring
          have e2 : (timed ++ [d]) ++ ds.take (k + 1) =
              timed ++ (d :: ds).take (k + 1 + 1) := by
            simp [List.take_succ_cons]
          have e3 : ((timed ++ [d]).length + (k + 1) : Nat) =
              (timed.length + (k + 1 + 1) : Nat) := by
            simp
            omega
          rw [e1, e2, e3]

/-- C9: after encoding segment k+1 (0-based position k in the run), the
reported estimated remaining time equals (count - completed) * average,
where completed = k+1 and average is the arithmetic mean of the wall-clock
durations of all encode steps recorded so far. -/
theorem remaining_time_formula (count : ℚ) (durations : List ℚ) (k : Nat)
    (hk : k < durations.length) :
    (txRemainReports count durations).get? k =
      some ((count - ((k + 1 : Nat) : ℚ)) *
        ((durations.take (k + 1)).sum / (((k + 1 : Nat)) : ℚ))) := by
  have h := timingLoop_get? count durations 1 [] k hk
  rw [txRemainReports, h]
  have e1 : ((1 + k : Nat) : ℚ) = ((k + 1 : Nat) : ℚ) := by
    push_cast
    ring
  simp [e1]

theorem remaining_time_formula_witness :
    (txRemainReports 3 [1, 2]).get? 1 = some (3 / 2) := by
  have h := remaining_time_formula 3 [1, 2] 1 (by decide)
  rw [h]
  norm_num [List.take_succ_cons]

end QrComm
